import Mathlib

/-
Verification of `extract_data.py` (BioCyc data extractor).

The Python source is shallowly embedded below.  Strings are modelled as
Lean `String` / `List Char`; Python `None` becomes `Option.none`;
Python exceptions (`KeyError`, `IndexError`, `TypeError`, failures of the
external BioCyc / PubChem clients) become `Except Unit`.  The two external
services consumed by `impute_chem` are modelled as oracle functions
quantified in the theorems, so a statement proved for all oracles holds
for every behaviour of the real services.
-/

set_option autoImplicit false

namespace BioCyc

/-- Python `str.isspace` on one character (ASCII whitespace, which is all
that occurs in the tab-separated input files). -/
def isPySpace (c : Char) : Bool :=
  c = ' ' || c = '\t' || c = '\n' || c = '\r' || c = '\x0b' || c = '\x0c'

/-- Python `str.isspace()` on a whole string: nonempty and all whitespace. -/
def pyIsSpaceL (l : List Char) : Bool :=
  !l.isEmpty && l.all isPySpace

/-- Python `str.strip()` on a character list. -/
def pyStripL (l : List Char) : List Char :=
  ((l.dropWhile isPySpace).reverse.dropWhile isPySpace).reverse

/-- Python `str.strip()`. -/
def pyStrip (s : String) : String :=
  String.mk (pyStripL s.data)

/-- Python `name.replace(c, '')`: remove every occurrence of character `c`. -/
def pyRemoveChar (c : Char) (l : List Char) : List Char :=
  l.filter (fun x => x != c)

/-- The loop `for char in ['&', ';', '[', ']']: name = name.replace(char, '')`
from `load_chem_links` / `extract_chems`. -/
def stripCharsL (l : List Char) : List Char :=
  pyRemoveChar ']' (pyRemoveChar '[' (pyRemoveChar ';' (pyRemoveChar '&' l)))

/-- One-pass model of `re.sub('<[^<>]*>', '', name)`.  The second argument is
the scanning state: `none` when not inside a potential tag, `some buf` when a
`'<'` has been seen and `buf` holds (reversed) the non-`<`/`>` characters read
since.  A `'>'` closes and deletes the tag; a second `'<'` restarts the tag at
the new position (the aborted opening bracket and its buffer are emitted
literally, exactly as the regex engine leaves unmatched text in place);
end of input with an open buffer emits it literally. -/
def stripTagsAux : List Char → Option (List Char) → List Char
  | [], none => []
  | [], some buf => '<' :: buf.reverse
  | c :: rest, none =>
    if c = '<' then stripTagsAux rest (some [])
    else c :: stripTagsAux rest none
  | c :: rest, some buf =>
    if c = '>' then stripTagsAux rest none
    else if c = '<' then ('<' :: buf.reverse) ++ stripTagsAux rest (some [])
    else stripTagsAux rest (some (c :: buf))

/-- Model of `re.sub('<[^<>]*>', '', name)` (leftmost, non-overlapping,
non-nested angle-bracket tags are deleted). -/
def stripTags (l : List Char) : List Char := stripTagsAux l none

/-- The article-dropping step:
`if name.startswith('a '): name = name[2:] elif name.startswith('an '): name = name[3:]`. -/
def dropArticle (l : List Char) : List Char :=
  if ['a', ' '].isPrefixOf l then l.drop 2
  else if ['a', 'n', ' '].isPrefixOf l then l.drop 3
  else l

/-- The complete name-normalization sequence applied to `COMMON-NAME` values in
`extract_chems` (lines 125-131) and to link-table names in `load_chem_links`
(lines 52-58): strip `&;[]`, strip `<...>` tags, drop a leading article. -/
def normalizeName (s : String) : String :=
  String.mk (dropArticle (stripTags (stripCharsL s.data)))

/-- Plain association-list lookup, modelling Python `dict` indexing
(`self.chem_links[id]`, `self.chems[chem_id]`). -/
def dictFind {κ : Type} {α : Type} [DecidableEq κ] (d : List (κ × α)) (k : κ) : Option α :=
  match d with
  | [] => none
  | (k', v) :: rest => if k' = k then some v else dictFind rest k

/-- Python `dict` assignment `d[k] = v`: overwrite in place if the key exists
(keeping its original insertion position), otherwise append. -/
def dictInsert {κ : Type} {α : Type} [DecidableEq κ] (k : κ) (v : α) (d : List (κ × α)) :
    List (κ × α) :=
  match d with
  | [] => [(k, v)]
  | (k', v') :: rest => if k' = k then (k, v) :: rest else (k', v') :: dictInsert k v rest

/-- One row of the `compound-links.dat` table
(`{'name': ..., 'inchi': ..., 'smiles': ...}` built in `load_chem_links`);
all three values are genuine strings there. -/
structure LinkEntry where
  name : String
  inchi : String
  smiles : String
deriving DecidableEq, Repr

/-- The object returned by `biocyc.get(id)` when it is not `None`: it exposes
`name` and `inchi` attributes, each of which may itself be Python `None`. -/
structure Compound where
  name : Option String
  inchi : Option String
deriving DecidableEq, Repr

/-- One candidate compound returned by `pcp.get_compounds`: attribute access
never raises but any field may be Python `None` (PubChem records can lack an
IUPAC name or a structure). -/
structure Candidate where
  iupac_name : Option String
  inchi : Option String
  canonical_smiles : Option String
deriving DecidableEq, Repr

/-- The `namespace` argument of `pcp.get_compounds`: `'inchi'`, `'smiles'` or
`'name'`. -/
inductive PcpKind where
  | byInchi
  | bySmiles
  | byName
deriving DecidableEq, Repr

/-- Behaviour of the external BioCyc client: `biocyc.get(id)` either raises
(`Except.error`), returns `None`, or returns a compound object. -/
def BGet : Type := Option String → Except Unit (Option Compound)

/-- Behaviour of the external PubChem client: `pcp.get_compounds(value, kind)`
either raises or returns a list of candidates. -/
def PQuery : Type := PcpKind → Option String → Except Unit (List Candidate)

/-- A Python `try: body except: handler` whose body produces a value. -/
def pyTry {α : Type} (body handler : Except Unit α) : Except Unit α :=
  match body with
  | .ok v => .ok v
  | .error _ => handler

/-- Python `c[0]`: raises `IndexError` on an empty list. -/
def listIdx0 {α : Type} (l : List α) : Except Unit α :=
  match l with
  | [] => .error ()
  | x :: _ => .ok x

/-- The fully-resolved record returned by `impute_chem`
(`{'name': ..., 'inchi': ..., 'smiles': ...}`); each value is whatever the
chain left in the corresponding Python variable, possibly `None`. -/
structure ChemRes where
  name : Option String
  inchi : Option String
  smiles : Option String
deriving DecidableEq, Repr

/-- Intermediate state of `impute_chem` after pass 1. -/
structure Pass1Out where
  name : Option String
  inchi : Option String
  smiles : Option String
deriving DecidableEq, Repr

/-- The `in_biocyc` fallback value used for the `inchi` field in pass 1:
`elif in_biocyc and compound.inchi != '': inchi = compound.inchi`
(`None != ''` is true in Python, so an absent attribute is assigned). -/
def biocycInchi (comp? : Option Compound) : Option String :=
  match comp? with
  | some c => if c.inchi ≠ some "" then c.inchi else none
  | none => none

/-- Pass 1 of `impute_chem` (lines 142-168): compute `in_links` / `in_biocyc`
(the two guarded lookups at the top of the function) and run the three
field-specific fallbacks against the link table and the BioCyc database. -/
def pass1 (links : List (String × LinkEntry)) (bget : BGet)
    (id name inchi smiles : Option String) : Pass1Out :=
  let entry? : Option LinkEntry :=
    match id with
    | some i => dictFind links i
    | none => none
  let comp? : Option Compound :=
    match bget id with
    | .ok (some c) => some c
    | _ => none
  let name1 : Option String :=
    match name with
    | some n => some n
    | none =>
      match entry? with
      | some e => some e.name
      | none =>
        match comp? with
        | some c => c.name
        | none => none
  let inchi1 : Option String :=
    match inchi with
    | some i => some i
    | none =>
      match entry? with
      | some e => if e.inchi ≠ "" then some e.inchi else biocycInchi comp?
      | none => biocycInchi comp?
  let smiles1 : Option String :=
    match smiles, entry? with
    | none, some e => some e.smiles
    | s, _ => s
  ⟨name1, inchi1, smiles1⟩

/-- The common shape of the three pass-2 blocks of `impute_chem`
(lines 171-202): `try` a PubChem query on the first key/value, reading field
`f` of the first candidate; on any failure `try` the second key/value; on any
failure default to `''`.  The field value is taken as-is (it may be `None`). -/
def pass2fallback (pq : PQuery) (k1 : PcpKind) (v1 : Option String)
    (k2 : PcpKind) (v2 : Option String) (f : Candidate → Option String) :
    Except Unit (Option String) :=
  pyTry (do
      let c ← pq k1 v1
      let h ← listIdx0 c
      .ok (f h))
    (pyTry (do
        let c ← pq k2 v2
        let h ← listIdx0 c
        .ok (f h))
      (.ok (some "")))

/-- Pass 2 for `name` (lines 171-180): query PubChem by inchi, then by smiles,
reading the candidate's `iupac_name`. -/
def pass2name (pq : PQuery) (inchi smiles : Option String) : Except Unit (Option String) :=
  pass2fallback pq .byInchi inchi .bySmiles smiles Candidate.iupac_name

/-- Pass 2 for `inchi` (lines 182-191): query PubChem by name, then by smiles,
reading the candidate's `inchi`. -/
def pass2inchi (pq : PQuery) (name smiles : Option String) : Except Unit (Option String) :=
  pass2fallback pq .byName name .bySmiles smiles Candidate.inchi

/-- Pass 2 for `smiles` (lines 193-202): query PubChem by name, then by inchi,
reading the candidate's `canonical_smiles`. -/
def pass2smiles (pq : PQuery) (name inchi : Option String) : Except Unit (Option String) :=
  pass2fallback pq .byName name .byInchi inchi Candidate.canonical_smiles

/-- Pass 2 of `impute_chem` (lines 170-208) given the state after pass 1:
each field still `None` is resolved through its PubChem fallback block; the
pass-2 query for `inchi` uses the already-updated `name`, and the query for
`smiles` uses the updated `name` and `inchi`, exactly as in the sequential
Python code. -/
def pass2all (pq : PQuery) (p : Pass1Out) : Except Unit ChemRes :=
  (match p.name with
    | none => pass2name pq p.inchi p.smiles
    | some n => .ok (some n)) >>= fun name2 =>
  (match p.inchi with
    | none => pass2inchi pq name2 p.smiles
    | some i => .ok (some i)) >>= fun inchi2 =>
  (match p.smiles with
    | none => pass2smiles pq name2 inchi2
    | some s => .ok (some s)) >>= fun smiles2 =>
  .ok ⟨name2, inchi2, smiles2⟩

/-- `BioCycData.impute_chem` (lines 142-208): pass 1 against the link table and
the BioCyc database, then pass 2 against PubChem for each field still `None`. -/
def impute_chem (links : List (String × LinkEntry)) (bget : BGet) (pq : PQuery)
    (id name inchi smiles : Option String) : Except Unit ChemRes :=
  pass2all pq (pass1 links bget id name inchi smiles)

/-- Python `line.split(' - ')` (used by `extract_chems` / `extract_rxns`):
split at every leftmost, non-overlapping occurrence of the three-character
separator.  The second argument accumulates the current field reversed. -/
def splitDash : List Char → List Char → List (List Char)
  | [], acc => [acc.reverse]
  | ' ' :: '-' :: ' ' :: rest, acc => acc.reverse :: splitDash rest []
  | c :: rest, acc => splitDash rest (c :: acc)

/-- Python `line.split('\t')` (used by the two link-table loaders). -/
def splitTab : List Char → List Char → List (List Char)
  | [], acc => [acc.reverse]
  | '\t' :: rest, acc => acc.reverse :: splitTab rest []
  | c :: rest, acc => splitTab rest (c :: acc)

/-- Python `entries[1]`: raises `IndexError` when there is no second element. -/
def listIdx1 {α : Type} (l : List α) : Except Unit α :=
  match l with
  | _ :: x :: _ => .ok x
  | _ => .error ()

/-- The accumulator of the `extract_chems` record loop
(`id, name, inchi, smiles = (None, None, None, None)`). -/
structure ChemAcc where
  id : Option String
  name : Option String
  inchi : Option String
  smiles : Option String
deriving DecidableEq, Repr

/-- The reset state of the chemical-record accumulator. -/
def initChemAcc : ChemAcc := ⟨none, none, none, none⟩

/-- Processing of one non-terminator line of `compounds.dat`
(`extract_chems`, lines 119-137): split on `' - '`, dispatch on the raw
(unstripped) first field, strip the second field, normalize `COMMON-NAME`
values; unrecognized keys leave the accumulator unchanged. -/
def chemStep (line : String) (acc : ChemAcc) : Except Unit ChemAcc :=
  let entries := splitDash line.data []
  let et := entries.headD []
  if et = "UNIQUE-ID".data then do
    let v ← listIdx1 entries
    .ok { acc with id := some (String.mk (pyStripL v)) }
  else if et = "COMMON-NAME".data then do
    let v ← listIdx1 entries
    .ok { acc with name := some (normalizeName (String.mk (pyStripL v))) }
  else if et = "NON-STANDARD-INCHI".data then do
    let v ← listIdx1 entries
    .ok { acc with inchi := some (String.mk (pyStripL v)) }
  else if et = "INCHI".data then do
    let v ← listIdx1 entries
    .ok { acc with inchi := some (String.mk (pyStripL v)) }
  else if et = "SMILES".data then do
    let v ← listIdx1 entries
    .ok { acc with smiles := some (String.mk (pyStripL v)) }
  else .ok acc

/-- Python `line.startswith('//')` (record terminator test). -/
def isTermLine (line : String) : Bool :=
  ("//".data).isPrefixOf line.data

/-- The `while True` loop of `extract_chems` (lines 105-137): the line list
holds the lines exactly as `readline` returns them (trailing newline kept);
an empty string means end of file (`if not line: break`), so a dangling
unterminated record is discarded; a `//` line finalizes the record through
`impute_chem` and stores it under the current id (possibly `None`). -/
def extract_chems_loop (links : List (String × LinkEntry)) (bget : BGet) (pq : PQuery) :
    List String → ChemAcc → List (Option String × ChemRes) →
    Except Unit (List (Option String × ChemRes))
  | [], _, chems => .ok chems
  | line :: rest, acc, chems =>
    if line = "" then .ok chems
    else if isTermLine line then do
      let r ← impute_chem links bget pq acc.id acc.name acc.inchi acc.smiles
      extract_chems_loop links bget pq rest initChemAcc (dictInsert acc.id r chems)
    else do
      let acc' ← chemStep line acc
      extract_chems_loop links bget pq rest acc' chems

/-- `BioCycData.extract_chems` (lines 95-140) on the line list of
`compounds.dat`. -/
def extract_chems (links : List (String × LinkEntry)) (bget : BGet) (pq : PQuery)
    (lines : List String) : Except Unit (List (Option String × ChemRes)) :=
  extract_chems_loop links bget pq lines initChemAcc []

/-- Pure accumulation of `chemStep` over a run of non-terminator lines (used
to phrase hypotheses about record bodies). -/
def foldChemSteps : List String → ChemAcc → Except Unit ChemAcc
  | [], acc => .ok acc
  | line :: rest, acc => do
    let acc' ← chemStep line acc
    foldChemSteps rest acc'

/-- The effect of one line on the `id` component of the accumulator alone
(same dispatch as `chemStep`). -/
def idStep (line : String) (cur : Option String) : Option String :=
  let entries := splitDash line.data []
  if entries.headD [] = "UNIQUE-ID".data then
    match entries with
    | _ :: v :: _ => some (String.mk (pyStripL v))
    | _ => cur
  else cur

/-- The ids under which the record loop files its `//`-terminated records, in
file order: the value of the accumulator's `id` at each terminator line. -/
def terminatedIdsAux : List String → Option String → List (Option String)
  | [], _ => []
  | line :: rest, cur =>
    if line = "" then []
    else if isTermLine line then cur :: terminatedIdsAux rest none
    else terminatedIdsAux rest (idStep line cur)

/-- Ids of the `//`-terminated records of a `compounds.dat` line list. -/
def terminatedIds (lines : List String) : List (Option String) :=
  terminatedIdsAux lines none

/-- Formalizes the claim phrase "chemical id appearing in `compounds.dat`":
every value carried by a `UNIQUE-ID` line of the file (stripped exactly as the
parser strips it). -/
def uniqueIdValues (lines : List String) : List String :=
  lines.filterMap (fun line =>
    let entries := splitDash line.data []
    if entries.headD [] = "UNIQUE-ID".data then
      match entries with
      | _ :: v :: _ => some (String.mk (pyStripL v))
      | _ => none
    else none)

/-- Python string concatenation where either side may be `None`
(`line += '\t' + values['name']` raises `TypeError` when a side is `None`). -/
def pyConcat (a b : Option String) : Except Unit String :=
  match a, b with
  | some x, some y => .ok (x ++ y)
  | _, _ => .error ()

/-- One row of `chemicals.txt` as built by `write_data` (lines 285-294):
`line = id`; `line += '\t' + values['name']` unconditionally; inchi and smiles
are appended only when not `None`. -/
def writeChemRow (id : Option String) (v : ChemRes) : Except Unit String := do
  let s1 ← pyConcat (some "\t") v.name
  let l1 ← pyConcat id (some s1)
  let l2 := match v.inchi with | some i => l1 ++ "\t" ++ i | none => l1
  let l3 := match v.smiles with | some s => l2 ++ "\t" ++ s | none => l2
  .ok (l3 ++ "\n")

/-- The chemicals loop of `write_data`: one row per entry of the chems
mapping, in insertion order. -/
def writeChemRows : List (Option String × ChemRes) → Except Unit (List String)
  | [] => .ok []
  | (id, v) :: rest => do
    let r ← writeChemRow id v
    let rs ← writeChemRows rest
    .ok (r :: rs)

/-- Helper for stating what a written row looks like: the optional
tab-prefixed column for a non-absent field. -/
def optCol : Option String → String
  | some s => "\t" ++ s
  | none => ""

/-- Processing of one line of `reaction-links.dat` (`load_rxn_links`,
lines 77-85): skip comment lines, skip lines whose second column satisfies
Python `isspace()` (nonempty, all whitespace), otherwise store
`id -> [ec[3:].strip() for ec in entries[1:]]`; a line with fewer than two
columns raises `IndexError`. -/
def rxnLinkStep (line : String) (table : List (String × List String)) :
    Except Unit (List (String × List String)) :=
  if ['#'].isPrefixOf line.data then .ok table
  else
    match splitTab line.data [] with
    | e0 :: e1 :: rest =>
      if pyIsSpaceL e1 then .ok table
      else .ok (dictInsert (String.mk (pyStripL e0))
        ((e1 :: rest).map (fun e => String.mk (pyStripL (e.drop 3)))) table)
    | _ => .error ()

/-- Fold of `rxnLinkStep` over the file's lines. -/
def load_rxn_links_aux :
    List String → List (String × List String) → Except Unit (List (String × List String))
  | [], t => .ok t
  | line :: rest, t => do
    let t' ← rxnLinkStep line t
    load_rxn_links_aux rest t'

/-- `BioCycData.load_rxn_links` (lines 70-88) on the line list of
`reaction-links.dat`. -/
def load_rxn_links (lines : List String) : Except Unit (List (String × List String)) :=
  load_rxn_links_aux lines []

/-- Non-comment lines of a link file (the lines that reach the column
parsing). -/
def isDataLine (line : String) : Bool :=
  !(['#'].isPrefixOf line.data)

/-- The second tab-separated column of a line (`entries[1]`), or `[]` when the
line has fewer than two columns. -/
def secondCol (line : String) : List Char :=
  (splitTab line.data []).getD 1 []

/-- A data line that `load_rxn_links` stores (not skipped by the `isspace`
test). -/
def keptRxnLine (line : String) : Bool :=
  isDataLine line && !pyIsSpaceL (secondCol line)

/-- The accumulator of the `extract_rxns` record loop
(`id, left, right, direction = (None, [], [], None)`). -/
structure RxnAcc where
  id : Option String
  left : List String
  right : List String
  direction : Option Int
deriving DecidableEq, Repr

/-- The reset state of the reaction-record accumulator. -/
def initRxnAcc : RxnAcc := ⟨none, [], [], none⟩

/-- Python `str.endswith`. -/
def pyEndsWith (suf l : List Char) : Bool :=
  suf.isSuffixOf l

/-- Processing of one non-terminator line of `reactions.dat`
(`extract_rxns`, lines 232-249): here the first field IS stripped before the
dispatch; `LEFT` and `RIGHT` append, `REACTION-DIRECTION` maps to one of
0, 1, 2, -1. -/
def rxnStep (line : String) (acc : RxnAcc) : Except Unit RxnAcc :=
  let entries := splitDash line.data []
  let et := pyStripL (entries.headD [])
  if et = "UNIQUE-ID".data then do
    let v ← listIdx1 entries
    .ok { acc with id := some (String.mk (pyStripL v)) }
  else if et = "LEFT".data then do
    let v ← listIdx1 entries
    .ok { acc with left := acc.left ++ [String.mk (pyStripL v)] }
  else if et = "RIGHT".data then do
    let v ← listIdx1 entries
    .ok { acc with right := acc.right ++ [String.mk (pyStripL v)] }
  else if et = "REACTION-DIRECTION".data then do
    let v ← listIdx1 entries
    let dir := pyStripL v
    let d : Int :=
      if dir = "REVERSIBLE".data then 0
      else if pyEndsWith "LEFT-TO-RIGHT".data dir then 1
      else if pyEndsWith "RIGHT-TO-LEFT".data dir then 2
      else -1
    .ok { acc with direction := some d }
  else .ok acc

/-- The record produced by `impute_rxn` (lines 254-274). -/
structure RxnRes where
  reactant_names : List (Option String)
  product_names : List (Option String)
  reactant_ids : List String
  product_ids : List String
  direction : Option Int
deriving DecidableEq, Repr

/-- `BioCycData.impute_rxn`: substitute each participant id by the resolved
chemical's `name` value when the id is a key of the chems mapping, else keep
the raw id; never raises. -/
def impute_rxn (chems : List (Option String × ChemRes)) (id : Option String)
    (left right : List String) (direction : Option Int) : RxnRes :=
  { reactant_names := left.map (fun cid =>
      match dictFind chems (some cid) with
      | some v => v.name
      | none => some cid),
    product_names := right.map (fun cid =>
      match dictFind chems (some cid) with
      | some v => v.name
      | none => some cid),
    reactant_ids := left,
    product_ids := right,
    direction := direction }

/-- The `while True` loop of `extract_rxns` (lines 218-249), mirroring the
chemical loop: `//` finalizes through `impute_rxn` and stores under the
current id (possibly `None`); a dangling record is discarded. -/
def extract_rxns_loop (chems : List (Option String × ChemRes)) :
    List String → RxnAcc → List (Option String × RxnRes) →
    Except Unit (List (Option String × RxnRes))
  | [], _, rxns => .ok rxns
  | line :: rest, acc, rxns =>
    if line = "" then .ok rxns
    else if isTermLine line then
      extract_rxns_loop chems rest initRxnAcc
        (dictInsert acc.id (impute_rxn chems acc.id acc.left acc.right acc.direction) rxns)
    else do
      let acc' ← rxnStep line acc
      extract_rxns_loop chems rest acc' rxns

/-- `BioCycData.extract_rxns` (lines 210-252) on the line list of
`reactions.dat`. -/
def extract_rxns (chems : List (Option String × ChemRes)) (lines : List String) :
    Except Unit (List (Option String × RxnRes)) :=
  extract_rxns_loop chems lines initRxnAcc []

/-- Pure accumulation of `rxnStep` over a run of non-terminator lines. -/
def foldRxnSteps : List String → RxnAcc → Except Unit RxnAcc
  | [], acc => .ok acc
  | line :: rest, acc => do
    let acc' ← rxnStep line acc
    foldRxnSteps rest acc'

example : normalizeName "a <x>broken[&];thing" = "brokenthing" := by decide
example : normalizeName "a a b" = "a b" := by decide
example : normalizeName "a b" = "b" := by decide
example : stripTags "<<x>>".data = "<>".data := by decide

example : impute_chem [] (fun _ => .ok none) (fun _ _ => .ok [⟨none, none, none⟩])
    (some "X") none none none = .ok ⟨none, none, none⟩ := rfl

example : impute_chem [("C1", ⟨"", "", ""⟩)] (fun _ => .ok (some ⟨some "X", some "I"⟩))
    (fun _ _ => .error ()) (some "C1") none none none
    = .ok ⟨some "", some "I", some ""⟩ := rfl

example : impute_chem [("C1", ⟨"foo", "QQ", "ss"⟩)] (fun _ => .error ())
    (fun _ _ => .error ()) (some "C1") none none none
    = .ok ⟨some "foo", some "QQ", some "ss"⟩ := rfl

example : extract_chems [] (fun _ => .error ()) (fun _ _ => .error ())
    ["UNIQUE-ID - A\n"] = .ok [] := rfl

example : extract_chems [] (fun _ => .error ()) (fun _ _ => .error ())
    ["UNIQUE-ID - A\n", "//\n"]
    = .ok [(some "A", ⟨some "", some "", some ""⟩)] := rfl

example : load_rxn_links ["A\t\tEC-1.1\n"] = .ok [("A", ["", "1.1"])] := rfl

example : load_rxn_links ["# x\n", "A\tEC-1\n", "B\t \n"] = .ok [("A", ["1"])] := rfl

example : writeChemRow (some "X") ⟨none, some "", some ""⟩ = .error () := rfl

example : writeChemRow (some "X") ⟨some "n", none, some "s"⟩ = .ok "X\tn\ts\n" := rfl

example : foldRxnSteps ["LEFT - c1\n", "RIGHT - c2\n", "REACTION-DIRECTION - REVERSIBLE\n"]
    initRxnAcc = .ok ⟨none, ["c1"], ["c2"], some 0⟩ := rfl

/-! Helper lemmas about the name normalization. -/

theorem string_mk_data (s : String) : String.mk s.data = s := rfl

theorem mem_stripCharsL {x : Char} {l : List Char} (h : x ∈ stripCharsL l) :
    x ∈ l ∧ x ≠ '&' ∧ x ≠ ';' ∧ x ≠ '[' ∧ x ≠ ']' := by
  simp only [stripCharsL, pyRemoveChar, List.mem_filter, bne_iff_ne] at h
  tauto

theorem stripCharsL_noop {l : List Char}
    (h : ∀ x ∈ l, x ≠ '&' ∧ x ≠ ';' ∧ x ≠ '[' ∧ x ≠ ']') : stripCharsL l = l := by
  have h4 : ∀ (c : Char) (m : List Char), (∀ x ∈ m, x ≠ c) → pyRemoveChar c m = m := by
    intro c m hm
    exact List.filter_eq_self.2 (fun a ha => by simpa [bne_iff_ne] using hm a ha)
  simp only [stripCharsL]
  rw [h4 '&' l (fun x hx => (h x hx).1)]
  rw [h4 ';' l (fun x hx => (h x hx).2.1)]
  rw [h4 '[' l (fun x hx => (h x hx).2.2.1)]
  rw [h4 ']' l (fun x hx => (h x hx).2.2.2)]

theorem mem_stripTagsAux (l : List Char) : ∀ (st : Option (List Char)) (x : Char),
    x ∈ stripTagsAux l st → x ∈ l ∨ x = '<' ∨ ∃ b, st = some b ∧ x ∈ b := by
  induction l with
  | nil =>
    intro st x hx
    cases st with
    | none => simp [stripTagsAux] at hx
    | some buf =>
      simp only [stripTagsAux, List.mem_cons, List.mem_reverse] at hx
      rcases hx with h | h
      · exact Or.inr (Or.inl h)
      · exact Or.inr (Or.inr ⟨buf, rfl, h⟩)
  | cons c rest ih =>
    intro st x hx
    cases st with
    | none =>
      by_cases hc : c = '<'
      · rw [hc] at hx
        simp only [stripTagsAux, if_pos rfl] at hx
        rcases ih (some []) x hx with h | h | ⟨b, hb, hmem⟩
        · exact Or.inl (List.mem_cons_of_mem _ h)
        · exact Or.inr (Or.inl h)
        · injection hb with hb; subst hb; simp at hmem
      · simp only [stripTagsAux, if_neg hc, List.mem_cons] at hx
        rcases hx with rfl | h
        · exact Or.inl (List.mem_cons_self _ _)
        · rcases ih none x h with h' | h' | ⟨b, hb, _⟩
          · exact Or.inl (List.mem_cons_of_mem _ h')
          · exact Or.inr (Or.inl h')
          · cases hb
    | some buf =>
      by_cases hc : c = '>'
      · rw [hc] at hx
        simp only [stripTagsAux, if_pos rfl] at hx
        rcases ih none x hx with h' | h' | ⟨b, hb, _⟩
        · exact Or.inl (List.mem_cons_of_mem _ h')
        · exact Or.inr (Or.inl h')
        · cases hb
      · by_cases hc' : c = '<'
        · rw [hc'] at hx
          simp only [stripTagsAux, if_neg (by decide : ¬('<' : Char) = '>'), if_pos rfl,
            if_true, List.cons_append, List.mem_cons] at hx
          rcases hx with rfl | hx2
          · exact Or.inr (Or.inl rfl)
          · rcases List.mem_append.1 hx2 with h | h
            · exact Or.inr (Or.inr ⟨buf, rfl, List.mem_reverse.1 h⟩)
            · rcases ih (some []) x h with h' | h' | ⟨b, hb, hmem⟩
              · exact Or.inl (List.mem_cons_of_mem _ h')
              · exact Or.inr (Or.inl h')
              · injection hb with hb; subst hb; simp at hmem
        · simp only [stripTagsAux, if_neg hc, if_neg hc'] at hx
          rcases ih (some (c :: buf)) x hx with h' | h' | ⟨b, hb, hmem⟩
          · exact Or.inl (List.mem_cons_of_mem _ h')
          · exact Or.inr (Or.inl h')
          · injection hb with hb; subst hb
            rcases List.mem_cons.1 hmem with rfl | hmem'
            · exact Or.inl (List.mem_cons_self _ _)
            · exact Or.inr (Or.inr ⟨buf, rfl, hmem'⟩)

theorem mem_dropArticle {x : Char} {l : List Char} (h : x ∈ dropArticle l) : x ∈ l := by
  unfold dropArticle at h
  split at h
  · exact List.drop_subset _ _ h
  · split at h
    · exact List.drop_subset _ _ h
    · exact h

theorem normalizeName_chars_good (s : String) :
    ∀ x ∈ (normalizeName s).data, x ≠ '&' ∧ x ≠ ';' ∧ x ≠ '[' ∧ x ≠ ']' := by
  intro x hx
  have hx' : x ∈ dropArticle (stripTags (stripCharsL s.data)) := hx
  have h1 : x ∈ stripTags (stripCharsL s.data) := mem_dropArticle hx'
  rcases mem_stripTagsAux _ none x h1 with h2 | h2 | ⟨b, hb, _⟩
  · exact (mem_stripCharsL h2).2
  · subst h2; refine ⟨by decide, by decide, by decide, by decide⟩
  · cases hb

theorem normalizeName_stripChars_noop (s : String) :
    stripCharsL (normalizeName s).data = (normalizeName s).data :=
  stripCharsL_noop (normalizeName_chars_good s)

/-- C4.  Counterexample to the claim that name normalization is idempotent:
normalizing `"a a b"` once gives `"a b"`, but a second normalization strips
the newly-exposed leading article and gives `"b"`. -/
theorem c4_counterexample :
    normalizeName (normalizeName "a a b") ≠ normalizeName "a a b" := by decide

/-- C4 (amended).  Name normalization is idempotent on every input whose
normalized form contains no angle-bracket tag occurrence (tag stripping is a
no-op on it) and does not begin with the article "a " or "an " (article
dropping is a no-op on it); in general a second application can strip more. -/
theorem c4_normalize_idempotent_cond (s : String)
    (htag : stripTags (normalizeName s).data = (normalizeName s).data)
    (hart : dropArticle (normalizeName s).data = (normalizeName s).data) :
    normalizeName (normalizeName s) = normalizeName s := by
  show String.mk (dropArticle (stripTags (stripCharsL (normalizeName s).data)))
      = normalizeName s
  rw [normalizeName_stripChars_noop s, htag, hart, string_mk_data]

/-- C4 witness: the hypotheses of `c4_normalize_idempotent_cond` hold for the
concrete input "a <x>broken[&];thing" and normalization is idempotent there. -/
theorem c4_witness :
    stripTags (normalizeName "a <x>broken[&];thing").data
        = (normalizeName "a <x>broken[&];thing").data
    ∧ dropArticle (normalizeName "a <x>broken[&];thing").data
        = (normalizeName "a <x>broken[&];thing").data
    ∧ normalizeName (normalizeName "a <x>broken[&];thing")
        = normalizeName "a <x>broken[&];thing" :=
  ⟨by decide, by decide,
    c4_normalize_idempotent_cond "a <x>broken[&];thing" (by decide) (by decide)⟩

/-- C5.  Counterexample: the code does NOT normalize "a <x>broken[&];thing" to
"broken thing" — the characters `[`, `&`, `]`, `;` are deleted without leaving
a space, so no space separates "broken" and "thing". -/
theorem c5_counterexample :
    normalizeName "a <x>broken[&];thing" ≠ "broken thing" := by decide

/-- C5 (amended).  Applying the name normalization to
"a <x>broken[&];thing" yields exactly "brokenthing". -/
theorem c5_normalized_value :
    normalizeName "a <x>broken[&];thing" = "brokenthing" := by decide

/-! Helper lemmas about `impute_chem`. -/

theorem except_bind_ok {α β : Type} (v : α) (f : α → Except Unit β) :
    ((.ok v : Except Unit α) >>= f) = f v := rfl

theorem except_bind_error {α β : Type} (e : Unit) (f : α → Except Unit β) :
    ((.error e : Except Unit α) >>= f) = .error e := rfl

theorem pyTry_isOk {α : Type} (b h : Except Unit α) (hh : ∃ v, h = .ok v) :
    ∃ v, pyTry b h = .ok v := by
  cases b with
  | ok v => exact ⟨v, rfl⟩
  | error e => simpa [pyTry] using hh

theorem pass2fallback_isOk (pq : PQuery) (k1 : PcpKind) (v1 : Option String)
    (k2 : PcpKind) (v2 : Option String) (f : Candidate → Option String) :
    ∃ v, pass2fallback pq k1 v1 k2 v2 f = .ok v :=
  pyTry_isOk _ _ (pyTry_isOk _ _ ⟨some "", rfl⟩)

theorem pass2fallback_isSome (pq : PQuery) (k1 : PcpKind) (v1 : Option String)
    (k2 : PcpKind) (v2 : Option String) (f : Candidate → Option String)
    (hpq : ∀ (k : PcpKind) (v : Option String) (c : Candidate) (cs : List Candidate),
      pq k v = .ok (c :: cs) → (f c).isSome)
    (v : Option String) (h : pass2fallback pq k1 v1 k2 v2 f = .ok v) : v.isSome := by
  unfold pass2fallback pyTry at h
  cases h1 : pq k1 v1 with
  | ok l1 =>
    rw [h1] at h
    cases l1 with
    | nil =>
      simp only [except_bind_ok, except_bind_error, listIdx0] at h
      cases h2 : pq k2 v2 with
      | ok l2 =>
        rw [h2] at h
        cases l2 with
        | nil =>
          simp only [except_bind_ok, except_bind_error, listIdx0] at h
          injection h with h; rw [← h]; rfl
        | cons c cs =>
          simp only [except_bind_ok, except_bind_error, listIdx0] at h
          injection h with h; rw [← h]
          exact hpq k2 v2 c cs h2
      | error e =>
        rw [h2] at h
        simp only [except_bind_error] at h
        injection h with h; rw [← h]; rfl
    | cons c cs =>
      simp only [except_bind_ok, except_bind_error, listIdx0] at h
      injection h with h; rw [← h]
      exact hpq k1 v1 c cs h1
  | error e =>
    rw [h1] at h
    simp only [except_bind_error] at h
    cases h2 : pq k2 v2 with
    | ok l2 =>
      rw [h2] at h
      cases l2 with
      | nil =>
        simp only [except_bind_ok, except_bind_error, listIdx0] at h
        injection h with h; rw [← h]; rfl
      | cons c cs =>
        simp only [except_bind_ok, except_bind_error, listIdx0] at h
        injection h with h; rw [← h]
        exact hpq k2 v2 c cs h2
    | error e2 =>
      rw [h2] at h
      simp only [except_bind_error] at h
      injection h with h; rw [← h]; rfl

theorem pass2all_isOk (pq : PQuery) (p : Pass1Out) : ∃ r, pass2all pq p = .ok r := by
  rcases p with ⟨pn, pi, ps⟩
  simp only [pass2all]
  obtain ⟨n2, hn2⟩ : ∃ v, ((match pn with
      | none => pass2name pq pi ps
      | some n => .ok (some n)) : Except Unit (Option String)) = .ok v := by
    cases pn
    · exact pass2fallback_isOk _ _ _ _ _ _
    · exact ⟨_, rfl⟩
  rw [hn2, except_bind_ok]
  obtain ⟨i2, hi2⟩ : ∃ v, ((match pi with
      | none => pass2inchi pq n2 ps
      | some i => .ok (some i)) : Except Unit (Option String)) = .ok v := by
    cases pi
    · exact pass2fallback_isOk _ _ _ _ _ _
    · exact ⟨_, rfl⟩
  rw [hi2, except_bind_ok]
  obtain ⟨s2, hs2⟩ : ∃ v, ((match ps with
      | none => pass2smiles pq n2 i2
      | some s => .ok (some s)) : Except Unit (Option String)) = .ok v := by
    cases ps
    · exact pass2fallback_isOk _ _ _ _ _ _
    · exact ⟨_, rfl⟩
  rw [hs2, except_bind_ok]
  exact ⟨_, rfl⟩

theorem impute_chem_isOk (links : List (String × LinkEntry)) (bget : BGet) (pq : PQuery)
    (id name inchi smiles : Option String) :
    ∃ r, impute_chem links bget pq id name inchi smiles = .ok r :=
  pass2all_isOk pq (pass1 links bget id name inchi smiles)

theorem pass2all_name_some (pq : PQuery) (p : Pass1Out) (n : String)
    (hn : p.name = some n) (r : ChemRes) (h : pass2all pq p = .ok r) :
    r.name = some n := by
  rcases p with ⟨pn, pi, ps⟩
  cases hn
  simp only [pass2all] at h
  rw [except_bind_ok] at h
  obtain ⟨i2, hi2⟩ : ∃ v, ((match pi with
      | none => pass2inchi pq (some n) ps
      | some i => .ok (some i)) : Except Unit (Option String)) = .ok v := by
    cases pi
    · exact pass2fallback_isOk _ _ _ _ _ _
    · exact ⟨_, rfl⟩
  rw [hi2, except_bind_ok] at h
  obtain ⟨s2, hs2⟩ : ∃ v, ((match ps with
      | none => pass2smiles pq (some n) i2
      | some s => .ok (some s)) : Except Unit (Option String)) = .ok v := by
    cases ps
    · exact pass2fallback_isOk _ _ _ _ _ _
    · exact ⟨_, rfl⟩
  rw [hs2, except_bind_ok] at h
  injection h with h
  rw [← h]

theorem pass1_name_of_links (links : List (String × LinkEntry)) (bget : BGet)
    (i : String) (e : LinkEntry) (ni si : Option String)
    (hfind : dictFind links i = some e) :
    (pass1 links bget (some i) none ni si).name = some e.name := by
  simp only [pass1, hfind]

/-- C6.  For every behaviour of the link table and of the two external
services — every way `biocyc.get` or `pcp.get_compounds` may raise, return
nothing, return an empty candidate list or return candidates with absent
fields — `impute_chem` returns normally: every failure inside the chain is
caught by an `except` and treated as "try the next fallback". -/
theorem c6_impute_chem_never_raises (links : List (String × LinkEntry)) (bget : BGet)
    (pq : PQuery) (id name inchi smiles : Option String) :
    ∃ r, impute_chem links bget pq id name inchi smiles = .ok r :=
  impute_chem_isOk links bget pq id name inchi smiles

/-- C3.  If the chemical id is present in the link table with entry `e`, then
for EVERY behaviour of the BioCyc database and of the structure-search service
the record resolved by `impute_chem` for that id (with all fields absent)
carries exactly the link-table name: the resolved name does not depend on
either external source. -/
theorem c3_link_name_noninterference (links : List (String × LinkEntry)) (i : String)
    (e : LinkEntry) (hfind : dictFind links i = some e) :
    ∀ (bget : BGet) (pq : PQuery) (r : ChemRes),
      impute_chem links bget pq (some i) none none none = .ok r → r.name = some e.name := by
  intro bget pq r h
  exact pass2all_name_some pq _ e.name (pass1_name_of_links links bget i e none none hfind) r h

/-- C3 witness: with the link table mapping CPD-1 to name "foo" and both
external services failing on every call, the resolved name is "foo". -/
theorem c3_witness : (⟨some "foo", some "", some ""⟩ : ChemRes).name = some "foo" :=
  c3_link_name_noninterference [("CPD-1", ⟨"foo", "", ""⟩)] "CPD-1" ⟨"foo", "", ""⟩ rfl
    (fun _ => .error ()) (fun _ _ => .error ()) ⟨some "foo", some "", some ""⟩ rfl

/-- C1.  Counterexample: when the structure-search service succeeds but its
first candidate has absent (None) fields — a behaviour the claim explicitly
quantifies over — `impute_chem` copies the absent values into the result, so
the returned record has all three fields equal to the absent marker, not
concrete strings. -/
theorem c1_counterexample :
    impute_chem [] (fun _ => .ok none) (fun _ _ => .ok [⟨none, none, none⟩])
      (some "X") none none none = .ok ⟨none, none, none⟩ := rfl

/-- C1 (amended).  The resolved record has all three of name, inchi, smiles
set to a concrete string (possibly empty) for every behaviour of the link
table and the external sources, PROVIDED every candidate list that the
structure-search service successfully returns has a first candidate whose
name/structure fields are all present; a candidate with an absent field is
copied through and leaves that field absent. -/
theorem c1_fields_concrete (links : List (String × LinkEntry)) (bget : BGet) (pq : PQuery)
    (id name inchi smiles : Option String) (r : ChemRes)
    (hpq : ∀ (k : PcpKind) (v : Option String) (c : Candidate) (cs : List Candidate),
      pq k v = .ok (c :: cs) →
      c.iupac_name.isSome ∧ c.inchi.isSome ∧ c.canonical_smiles.isSome)
    (h : impute_chem links bget pq id name inchi smiles = .ok r) :
    r.name.isSome ∧ r.inchi.isSome ∧ r.smiles.isSome := by
  unfold impute_chem at h
  rcases hp : pass1 links bget id name inchi smiles with ⟨pn, pi, ps⟩
  rw [hp] at h
  simp only [pass2all] at h
  obtain ⟨n2, hn2, hn2s⟩ : ∃ v, (((match pn with
      | none => pass2name pq pi ps
      | some n => .ok (some n)) : Except Unit (Option String)) = .ok v) ∧ v.isSome := by
    cases pn with
    | none =>
      obtain ⟨v, hv⟩ := pass2fallback_isOk pq .byInchi pi .bySmiles ps Candidate.iupac_name
      exact ⟨v, hv, pass2fallback_isSome pq .byInchi pi .bySmiles ps Candidate.iupac_name
        (fun k w c cs hk => (hpq k w c cs hk).1) v hv⟩
    | some n => exact ⟨some n, rfl, rfl⟩
  rw [hn2, except_bind_ok] at h
  obtain ⟨i2, hi2, hi2s⟩ : ∃ v, (((match pi with
      | none => pass2inchi pq n2 ps
      | some i => .ok (some i)) : Except Unit (Option String)) = .ok v) ∧ v.isSome := by
    cases pi with
    | none =>
      obtain ⟨v, hv⟩ := pass2fallback_isOk pq .byName n2 .bySmiles ps Candidate.inchi
      exact ⟨v, hv, pass2fallback_isSome pq .byName n2 .bySmiles ps Candidate.inchi
        (fun k w c cs hk => (hpq k w c cs hk).2.1) v hv⟩
    | some i => exact ⟨some i, rfl, rfl⟩
  rw [hi2, except_bind_ok] at h
  obtain ⟨s2, hs2, hs2s⟩ : ∃ v, (((match ps with
      | none => pass2smiles pq n2 i2
      | some s => .ok (some s)) : Except Unit (Option String)) = .ok v) ∧ v.isSome := by
    cases ps with
    | none =>
      obtain ⟨v, hv⟩ := pass2fallback_isOk pq .byName n2 .byInchi i2 Candidate.canonical_smiles
      exact ⟨v, hv, pass2fallback_isSome pq .byName n2 .byInchi i2 Candidate.canonical_smiles
        (fun k w c cs hk => (hpq k w c cs hk).2.2) v hv⟩
    | some s => exact ⟨some s, rfl, rfl⟩
  rw [hs2, except_bind_ok] at h
  injection h with h
  rw [← h]
  exact ⟨hn2s, hi2s, hs2s⟩

/-- C1 witness: with every external call failing (so the vacuously-true
candidate hypothesis holds), all three fields of the result are concrete. -/
theorem c1_witness :
    (⟨some "", some "", some ""⟩ : ChemRes).name.isSome
    ∧ (⟨some "", some "", some ""⟩ : ChemRes).inchi.isSome
    ∧ (⟨some "", some "", some ""⟩ : ChemRes).smiles.isSome :=
  c1_fields_concrete [] (fun _ => .error ()) (fun _ _ => .error ())
    (some "X") none none none ⟨some "", some "", some ""⟩
    (fun _ _ _ _ hk => nomatch hk) rfl

/-- C2.  Counterexample: the id is in the link table with an EMPTY name, and
the BioCyc database knows the compound under the non-empty name "X"; the claim
says pass 1 takes the first source with a non-empty value (hence "X"), but the
code takes the link-table value whenever the id is a key of the link table,
so the resolved name is the empty string, and similarly the empty link-table
smiles is taken (instead of leaving the field for pass 2). -/
theorem c2_counterexample :
    impute_chem [("C1", ⟨"", "", ""⟩)] (fun _ => .ok (some ⟨some "X", some "I"⟩))
      (fun _ _ => .error ()) (some "C1") none none none
      = .ok ⟨some "", some "I", some ""⟩ ∧ (some "" : Option String) ≠ some "X" :=
  ⟨rfl, by decide⟩

/-- C2 (amended).  Pass-1 source order, as the code implements it: for `name`,
the link table wins whenever the id is one of its keys — even with an empty
value and without consulting the database — and otherwise the database
compound's name attribute is taken as-is; for `inchi` the claim's rule does
hold: link table first, then database, each source only taken when its value
is non-empty; for `smiles` only the link table is consulted (no database
fallback), and its value is taken even when empty. -/
theorem c2_pass1_sources :
    (∀ (links : List (String × LinkEntry)) (bget : BGet) (i : String) (e : LinkEntry)
        (ni si : Option String), dictFind links i = some e →
        (pass1 links bget (some i) none ni si).name = some e.name)
    ∧ (∀ (links : List (String × LinkEntry)) (bget : BGet) (i : String) (c : Compound)
        (ni si : Option String), dictFind links i = none →
        bget (some i) = .ok (some c) →
        (pass1 links bget (some i) none ni si).name = c.name)
    ∧ (∀ (links : List (String × LinkEntry)) (bget : BGet) (i : String) (e : LinkEntry)
        (nn ss : Option String), dictFind links i = some e → e.inchi ≠ "" →
        (pass1 links bget (some i) nn none ss).inchi = some e.inchi)
    ∧ (∀ (links : List (String × LinkEntry)) (bget : BGet) (i : String) (e : LinkEntry)
        (c : Compound) (nn ss : Option String) (x : String),
        dictFind links i = some e → e.inchi = "" →
        bget (some i) = .ok (some c) → c.inchi = some x → x ≠ "" →
        (pass1 links bget (some i) nn none ss).inchi = some x)
    ∧ (∀ (links : List (String × LinkEntry)) (bget : BGet) (i : String) (e : LinkEntry)
        (c : Compound) (nn ss : Option String),
        dictFind links i = some e → e.inchi = "" →
        bget (some i) = .ok (some c) → c.inchi = some "" →
        (pass1 links bget (some i) nn none ss).inchi = none)
    ∧ (∀ (links : List (String × LinkEntry)) (bget : BGet) (i : String) (e : LinkEntry)
        (nn ii : Option String), dictFind links i = some e →
        (pass1 links bget (some i) nn ii none).smiles = some e.smiles)
    ∧ (∀ (links : List (String × LinkEntry)) (bget : BGet) (i : String)
        (nn ii : Option String), dictFind links i = none →
        (pass1 links bget (some i) nn ii none).smiles = none) := by
  refine ⟨?_, ?_, ?_, ?_, ?_, ?_, ?_⟩
  · intro links bget i e ni si hfind
    simp only [pass1, hfind]
  · intro links bget i c ni si hfind hb
    simp only [pass1, hfind, hb]
  · intro links bget i e nn ss hfind hne
    simp only [pass1, hfind, if_pos hne]
  · intro links bget i e c nn ss x hfind he hb hc hx
    simp only [pass1, hfind, he, hb, biocycInchi, hc]
    simp [hx]
  · intro links bget i e c nn ss hfind he hb hc
    simp only [pass1, hfind, he, hb, biocycInchi, hc]
    simp
  · intro links bget i e nn ii hfind
    simp only [pass1, hfind]
  · intro links bget i nn ii hfind
    simp only [pass1, hfind]

/-- C2 witness: at a concrete link table with empty name/inchi/smiles values
and a database compound with name "X" and inchi "I", pass 1 yields the empty
link name, the database inchi, and the empty link smiles. -/
theorem c2_witness :
    (pass1 [("C1", ⟨"", "", ""⟩)] (fun _ => .ok (some ⟨some "X", some "I"⟩))
        (some "C1") none none none).name = some ""
    ∧ (pass1 [("C1", ⟨"", "", ""⟩)] (fun _ => .ok (some ⟨some "X", some "I"⟩))
        (some "C1") none none none).inchi = some "I"
    ∧ (pass1 [("C1", ⟨"", "", ""⟩)] (fun _ => .ok (some ⟨some "X", some "I"⟩))
        (some "C1") none none none).smiles = some "" :=
  ⟨c2_pass1_sources.1 [("C1", ⟨"", "", ""⟩)] (fun _ => .ok (some ⟨some "X", some "I"⟩))
      "C1" ⟨"", "", ""⟩ none none rfl,
    c2_pass1_sources.2.2.2.1 [("C1", ⟨"", "", ""⟩)]
      (fun _ => .ok (some ⟨some "X", some "I"⟩)) "C1" ⟨"", "", ""⟩ ⟨some "X", some "I"⟩
      none none "I" rfl rfl rfl rfl (by decide),
    c2_pass1_sources.2.2.2.2.2.1 [("C1", ⟨"", "", ""⟩)]
      (fun _ => .ok (some ⟨some "X", some "I"⟩)) "C1" ⟨"", "", ""⟩ none none rfl⟩

/-- C7.  Counterexample: on a row whose `name` is the absent marker the writer
does NOT omit the column — the unguarded `line += '\t' + values['name']`
raises a `TypeError` (only `inchi` and `smiles` are guarded by a None test). -/
theorem c7_counterexample :
    writeChemRow (some "X") ⟨none, some "", some ""⟩ = .error () := rfl

/-- C7 (amended).  The writer omits the column for an absent `inchi` or
`smiles` (empty strings are still written) and produces the ragged row; but
`name` is concatenated unguarded, so only rows with a present name are
written, and an absent name crashes the writer (see the counterexample). -/
theorem c7_writer_ragged_rows (i n : String) (io so : Option String) :
    writeChemRow (some i) ⟨some n, io, so⟩
      = .ok (i ++ "\t" ++ n ++ optCol io ++ optCol so ++ "\n") := by
  cases io <;> cases so <;>
    simp [writeChemRow, pyConcat, optCol, except_bind_ok, String.append_assoc]

/-! Helper lemmas about the reaction-link loader. -/

theorem dictInsert_length_le {κ α : Type} [DecidableEq κ] (k : κ) (v : α)
    (d : List (κ × α)) : (dictInsert k v d).length ≤ d.length + 1 := by
  induction d with
  | nil => simp [dictInsert]
  | cons p rest ih =>
    rcases p with ⟨k', v'⟩
    by_cases hk : k' = k
    · simp [dictInsert, hk]
    · simp only [dictInsert, if_neg hk, List.length_cons]
      omega

theorem rxnLinkStep_skip (line : String) (t : List (String × List String))
    (hdata : isDataLine line = true) (hsp : pyIsSpaceL (secondCol line) = true) :
    rxnLinkStep line t = .ok t := by
  have hc' : ¬ (['#'].isPrefixOf line.data = true) := by
    unfold isDataLine at hdata
    intro hcontra
    rw [hcontra] at hdata
    exact absurd hdata (by decide)
  unfold rxnLinkStep
  rw [if_neg hc']
  rcases hsplit : splitTab line.data [] with _ | ⟨e0, el⟩
  · exfalso
    have hcol : secondCol line = [] := by simp [secondCol, hsplit]
    rw [hcol] at hsp
    simp [pyIsSpaceL] at hsp
  · rcases el with _ | ⟨e1, rest⟩
    · exfalso
      have hcol : secondCol line = [] := by simp [secondCol, hsplit]
      rw [hcol] at hsp
      simp [pyIsSpaceL] at hsp
    · have he1 : secondCol line = e1 := by simp [secondCol, hsplit]
      show (if pyIsSpaceL e1 = true then Except.ok t
        else Except.ok (dictInsert (String.mk (pyStripL e0))
          ((e1 :: rest).map (fun e => String.mk (pyStripL (e.drop 3)))) t)) = Except.ok t
      rw [if_pos (he1 ▸ hsp)]

theorem rxnLinkStep_length (line : String) (t t' : List (String × List String))
    (h : rxnLinkStep line t = .ok t') :
    t'.length ≤ t.length + (if keptRxnLine line then 1 else 0) := by
  unfold rxnLinkStep at h
  by_cases hc : ['#'].isPrefixOf line.data = true
  · rw [if_pos hc] at h
    injection h with h
    subst h
    split <;> omega
  · rw [if_neg hc] at h
    rcases hsplit : splitTab line.data [] with _ | ⟨e0, el⟩
    · rw [hsplit] at h; cases h
    · rcases el with _ | ⟨e1, rest⟩
      · rw [hsplit] at h; cases h
      · rw [hsplit] at h
        replace h : (if pyIsSpaceL e1 = true then Except.ok t
            else Except.ok (dictInsert (String.mk (pyStripL e0))
              ((e1 :: rest).map (fun e => String.mk (pyStripL (e.drop 3)))) t))
            = Except.ok t' := h
        by_cases hsp : pyIsSpaceL e1 = true
        · rw [if_pos hsp] at h
          injection h with h
          subst h
          split <;> omega
        · rw [if_neg hsp] at h
          injection h with h
          subst h
          have hkept : keptRxnLine line = true := by
            have hc2 : ['#'].isPrefixOf line.data = false := by
              cases hb : ['#'].isPrefixOf line.data
              · rfl
              · exact absurd hb hc
            have hsp2 : pyIsSpaceL e1 = false := by
              cases hb : pyIsSpaceL e1
              · rfl
              · exact absurd hb hsp
            simp [keptRxnLine, isDataLine, hc2, secondCol, hsplit, hsp2]
          rw [hkept, if_pos rfl]
          exact dictInsert_length_le _ _ _

theorem load_rxn_links_aux_length (lines : List String) :
    ∀ (t0 t : List (String × List String)), load_rxn_links_aux lines t0 = .ok t →
      t.length ≤ t0.length + lines.countP keptRxnLine := by
  induction lines with
  | nil =>
    intro t0 t h
    injection h with h
    subst h
    simp
  | cons line rest ih =>
    intro t0 t h
    simp only [load_rxn_links_aux] at h
    cases hstep : rxnLinkStep line t0 with
    | ok t1 =>
      rw [hstep, except_bind_ok] at h
      have h1 := rxnLinkStep_length line t0 t1 hstep
      have h2 := ih t1 t h
      rw [List.countP_cons]
      omega
    | error e =>
      rw [hstep] at h
      simp only [except_bind_error] at h
      cases h

theorem countP_lt_of_mem {α : Type} (p q : α → Bool) (l : List α)
    (hpq : ∀ a, p a = true → q a = true) (a0 : α) (h0 : a0 ∈ l)
    (hq : q a0 = true) (hp : p a0 = false) : l.countP p < l.countP q := by
  induction l with
  | nil => cases h0
  | cons a rest ih =>
    rw [List.countP_cons, List.countP_cons]
    rcases List.mem_cons.1 h0 with rfl | h0'
    · rw [hp, hq]
      have hmono := List.countP_mono_left (l := rest) (p := p) (q := q)
        (fun x _ hx => hpq x hx)
      have e1 : (if false = true then (1 : Nat) else 0) = 0 := rfl
      have e2 : (if true = true then (1 : Nat) else 0) = 1 := rfl
      rw [e1, e2]
      omega
    · have hlt := ih h0'
      have hle : (if p a = true then 1 else 0) ≤ (if q a = true then 1 else 0) := by
        by_cases hpa : p a = true
        · rw [if_pos hpa, if_pos (hpq a hpa)]
        · rw [if_neg hpa]
          split <;> omega
      omega

/-- C9.  Counterexample: a row whose second column is blank (the empty string,
here produced by two adjacent tabs) is NOT omitted — Python `''.isspace()` is
false, so the row is stored (with an empty first code), and the table has
exactly as many entries as there are data lines. -/
theorem c9_counterexample :
    load_rxn_links ["A\t\tEC-1.1\n"] = .ok [("A", ["", "1.1"])]
    ∧ ¬ (([("A", ["", "1.1"])] : List (String × List String)).length
        < (["A\t\tEC-1.1\n"].filter isDataLine).length) :=
  ⟨rfl, by decide⟩

/-- C9 (amended).  A data row whose second column is NONEMPTY whitespace is
skipped (the table is unchanged by it), and when such a row exists the
resulting table has strictly fewer entries than the number of data lines; a
row whose second column is the empty string is kept. -/
theorem c9_whitespace_rows_skipped :
    (∀ (line : String) (t : List (String × List String)), isDataLine line = true →
        pyIsSpaceL (secondCol line) = true → rxnLinkStep line t = .ok t)
    ∧ (∀ (lines : List String) (t : List (String × List String)),
        load_rxn_links lines = .ok t →
        (∃ l0 ∈ lines, isDataLine l0 = true ∧ pyIsSpaceL (secondCol l0) = true) →
        t.length < (lines.filter isDataLine).length) := by
  constructor
  · exact rxnLinkStep_skip
  · intro lines t h hex
    rcases hex with ⟨l0, hmem, hdata, hsp⟩
    have h1 := load_rxn_links_aux_length lines [] t h
    have h2 : lines.countP keptRxnLine < lines.countP isDataLine := by
      refine countP_lt_of_mem _ _ _ ?_ l0 hmem hdata ?_
      · intro a ha
        simp only [keptRxnLine, Bool.and_eq_true] at ha
        exact ha.1
      · simp [keptRxnLine, hdata, hsp]
    rw [← List.countP_eq_length_filter]
    simp only [List.length_nil, Nat.zero_add] at h1
    omega

/-- C9 witness: a concrete file with one comment line, one kept data line and
one whitespace-only-code line loads to a one-entry table, strictly smaller
than the two data lines. -/
theorem c9_witness :
    ([("A", ["1"])] : List (String × List String)).length
      < (["# c\n", "A\tEC-1\n", "B\t \n"].filter isDataLine).length :=
  c9_whitespace_rows_skipped.2 ["# c\n", "A\tEC-1\n", "B\t \n"] [("A", ["1"])] rfl
    ⟨"B\t \n", by decide, by decide, by decide⟩

/-! Helper lemmas about the record parsers and the writer. -/

theorem bind_ok_inv {α β : Type} (x : Except Unit α) (f : α → Except Unit β) (w : β)
    (h : (x >>= f) = .ok w) : ∃ v, x = .ok v ∧ f v = .ok w := by
  cases x with
  | error e =>
    rw [except_bind_error] at h
    cases h
  | ok v =>
    refine ⟨v, rfl, ?_⟩
    rw [except_bind_ok] at h
    exact h

theorem mem_keys_dictInsert {κ α : Type} [DecidableEq κ] (k k' : κ) (v : α)
    (d : List (κ × α)) :
    k' ∈ (dictInsert k v d).map Prod.fst ↔ k' = k ∨ k' ∈ d.map Prod.fst := by
  induction d with
  | nil => simp [dictInsert]
  | cons p rest ih =>
    rcases p with ⟨k0, v0⟩
    by_cases hk : k0 = k
    · subst hk
      simp only [dictInsert]
      rw [if_pos trivial]
      simp only [List.map_cons, List.mem_cons]
      tauto
    · simp only [dictInsert]
      rw [if_neg hk]
      simp only [List.map_cons, List.mem_cons, ih]
      tauto

theorem nodup_keys_dictInsert {κ α : Type} [DecidableEq κ] (k : κ) (v : α)
    (d : List (κ × α)) (hd : (d.map Prod.fst).Nodup) :
    ((dictInsert k v d).map Prod.fst).Nodup := by
  induction d with
  | nil => simp [dictInsert]
  | cons p rest ih =>
    rcases p with ⟨k0, v0⟩
    simp only [List.map_cons, List.nodup_cons] at hd
    by_cases hk : k0 = k
    · subst hk
      simp only [dictInsert]
      rw [if_pos trivial]
      simp only [List.map_cons, List.nodup_cons]
      exact hd
    · simp only [dictInsert]
      rw [if_neg hk]
      simp only [List.map_cons, List.nodup_cons]
      refine ⟨?_, ih hd.2⟩
      intro hmem
      rw [mem_keys_dictInsert] at hmem
      rcases hmem with rfl | hmem
      · exact hk rfl
      · exact hd.1 hmem

theorem chemStep_id (line : String) (acc acc' : ChemAcc)
    (h : chemStep line acc = .ok acc') : acc'.id = idStep line acc.id := by
  unfold chemStep at h
  unfold idStep
  by_cases h1 : (splitDash line.data []).headD [] = "UNIQUE-ID".data
  · rw [if_pos h1] at h
    rw [if_pos h1]
    obtain ⟨v, hv, hf⟩ := bind_ok_inv _ _ _ h
    injection hf with hf
    rcases hsplit : splitDash line.data [] with _ | ⟨e0, el⟩
    · rw [hsplit] at hv; cases hv
    · rcases el with _ | ⟨e1, rest⟩
      · rw [hsplit] at hv; cases hv
      · rw [hsplit] at hv
        injection hv with hv
        subst hv
        rw [← hf]
  · rw [if_neg h1] at h
    rw [if_neg h1]
    by_cases h2 : (splitDash line.data []).headD [] = "COMMON-NAME".data
    · rw [if_pos h2] at h
      obtain ⟨v, hv, hf⟩ := bind_ok_inv _ _ _ h
      injection hf with hf
      rw [← hf]
    · rw [if_neg h2] at h
      by_cases h3 : (splitDash line.data []).headD [] = "NON-STANDARD-INCHI".data
      · rw [if_pos h3] at h
        obtain ⟨v, hv, hf⟩ := bind_ok_inv _ _ _ h
        injection hf with hf
        rw [← hf]
      · rw [if_neg h3] at h
        by_cases h4 : (splitDash line.data []).headD [] = "INCHI".data
        · rw [if_pos h4] at h
          obtain ⟨v, hv, hf⟩ := bind_ok_inv _ _ _ h
          injection hf with hf
          rw [← hf]
        · rw [if_neg h4] at h
          by_cases h5 : (splitDash line.data []).headD [] = "SMILES".data
          · rw [if_pos h5] at h
            obtain ⟨v, hv, hf⟩ := bind_ok_inv _ _ _ h
            injection hf with hf
            rw [← hf]
          · rw [if_neg h5] at h
            injection h with h
            rw [← h]

theorem extract_chems_loop_mem (links : List (String × LinkEntry)) (bget : BGet)
    (pq : PQuery) (lines : List String) :
    ∀ (acc : ChemAcc) (chems out : List (Option String × ChemRes)),
      extract_chems_loop links bget pq lines acc chems = .ok out →
      ∀ k, k ∈ out.map Prod.fst
        ↔ (k ∈ chems.map Prod.fst ∨ k ∈ terminatedIdsAux lines acc.id) := by
  induction lines with
  | nil =>
    intro acc chems out h k
    injection h with h
    subst h
    simp [terminatedIdsAux]
  | cons line rest ih =>
    intro acc chems out h k
    simp only [extract_chems_loop] at h
    unfold terminatedIdsAux
    by_cases hempty : line = ""
    · rw [if_pos hempty] at h
      rw [if_pos hempty]
      injection h with h
      subst h
      simp
    · rw [if_neg hempty] at h
      rw [if_neg hempty]
      by_cases hterm : isTermLine line = true
      · rw [if_pos hterm] at h
        rw [if_pos hterm]
        obtain ⟨r, hr, hloop⟩ := bind_ok_inv _ _ _ h
        rw [ih initChemAcc (dictInsert acc.id r chems) out hloop k]
        rw [mem_keys_dictInsert]
        simp only [List.mem_cons]
        tauto
      · rw [if_neg hterm] at h
        rw [if_neg hterm]
        obtain ⟨acc', hstep, hloop⟩ := bind_ok_inv _ _ _ h
        rw [ih acc' chems out hloop k, chemStep_id line acc acc' hstep]

theorem extract_chems_loop_nodup (links : List (String × LinkEntry)) (bget : BGet)
    (pq : PQuery) (lines : List String) :
    ∀ (acc : ChemAcc) (chems out : List (Option String × ChemRes)),
      extract_chems_loop links bget pq lines acc chems = .ok out →
      (chems.map Prod.fst).Nodup → (out.map Prod.fst).Nodup := by
  induction lines with
  | nil =>
    intro acc chems out h hnd
    injection h with h
    subst h
    exact hnd
  | cons line rest ih =>
    intro acc chems out h hnd
    simp only [extract_chems_loop] at h
    by_cases hempty : line = ""
    · rw [if_pos hempty] at h
      injection h with h
      subst h
      exact hnd
    · rw [if_neg hempty] at h
      by_cases hterm : isTermLine line = true
      · rw [if_pos hterm] at h
        obtain ⟨r, hr, hloop⟩ := bind_ok_inv _ _ _ h
        exact ih initChemAcc _ out hloop (nodup_keys_dictInsert _ _ _ hnd)
      · rw [if_neg hterm] at h
        obtain ⟨acc', hstep, hloop⟩ := bind_ok_inv _ _ _ h
        exact ih acc' chems out hloop hnd

theorem writeChemRows_length (chems : List (Option String × ChemRes)) :
    ∀ rows, writeChemRows chems = .ok rows → rows.length = chems.length := by
  induction chems with
  | nil =>
    intro rows h
    injection h with h
    subst h
    rfl
  | cons p rest ih =>
    intro rows h
    rcases p with ⟨id0, v⟩
    simp only [writeChemRows] at h
    obtain ⟨r, hr, h2⟩ := bind_ok_inv _ _ _ h
    obtain ⟨rs, hrs, h3⟩ := bind_ok_inv _ _ _ h2
    injection h3 with h3
    subst h3
    simp [ih rs hrs]

theorem extract_chems_loop_append (links : List (String × LinkEntry)) (bget : BGet)
    (pq : PQuery) :
    ∀ (body rest : List String) (acc : ChemAcc) (chems : List (Option String × ChemRes)),
      (∀ l ∈ body, l ≠ "" ∧ isTermLine l = false) →
      extract_chems_loop links bget pq (body ++ rest) acc chems
        = (foldChemSteps body acc >>= fun a =>
            extract_chems_loop links bget pq rest a chems) := by
  intro body
  induction body with
  | nil =>
    intro rest acc chems hb
    simp [foldChemSteps, except_bind_ok]
  | cons line bl ih =>
    intro rest acc chems hb
    have hl := hb line (List.mem_cons_self _ _)
    have hbl : ∀ l ∈ bl, l ≠ "" ∧ isTermLine l = false :=
      fun l hm => hb l (List.mem_cons_of_mem _ hm)
    simp only [List.cons_append, extract_chems_loop, foldChemSteps]
    rw [if_neg hl.1]
    have hterm : ¬ (isTermLine line = true) := by rw [hl.2]; decide
    rw [if_neg hterm]
    cases hstep : chemStep line acc with
    | ok acc' =>
      rw [except_bind_ok, except_bind_ok]
      exact ih rest acc' chems hbl
    | error e =>
      rw [except_bind_error, except_bind_error, except_bind_error]

theorem extract_rxns_loop_append (chems : List (Option String × ChemRes)) :
    ∀ (body rest : List String) (acc : RxnAcc) (rxns : List (Option String × RxnRes)),
      (∀ l ∈ body, l ≠ "" ∧ isTermLine l = false) →
      extract_rxns_loop chems (body ++ rest) acc rxns
        = (foldRxnSteps body acc >>= fun a =>
            extract_rxns_loop chems rest a rxns) := by
  intro body
  induction body with
  | nil =>
    intro rest acc rxns hb
    simp [foldRxnSteps, except_bind_ok]
  | cons line bl ih =>
    intro rest acc rxns hb
    have hl := hb line (List.mem_cons_self _ _)
    have hbl : ∀ l ∈ bl, l ≠ "" ∧ isTermLine l = false :=
      fun l hm => hb l (List.mem_cons_of_mem _ hm)
    simp only [List.cons_append, extract_rxns_loop, foldRxnSteps]
    rw [if_neg hl.1]
    have hterm : ¬ (isTermLine line = true) := by rw [hl.2]; decide
    rw [if_neg hterm]
    cases hstep : rxnStep line acc with
    | ok acc' =>
      rw [except_bind_ok, except_bind_ok]
      exact ih rest acc' rxns hbl
    | error e =>
      rw [except_bind_error, except_bind_error, except_bind_error]

/-- C8.  Counterexample: the id `A` appears (as a UNIQUE-ID value) in a
`compounds.dat` consisting of one dangling, unterminated record; the parser
discards the record at end of file, so the chems mapping is empty and no row
for `A` is ever written. -/
theorem c8_counterexample :
    "A" ∈ uniqueIdValues ["UNIQUE-ID - A\n"]
    ∧ extract_chems [] (fun _ => .error ()) (fun _ _ => .error ()) ["UNIQUE-ID - A\n"]
      = .ok [] :=
  ⟨by decide, rfl⟩

/-- C8 (amended).  When parsing succeeds, the keys of the chems mapping are
exactly the accumulator ids captured at the `//` terminators (for each record,
the LAST `UNIQUE-ID` value seen in it, or the absent marker), each key occurs
exactly once (`Nodup` — later records with the same id overwrite in place),
and the writer emits exactly one row per key; ids occurring only in a dangling
unterminated record (or superseded inside their record) produce no row. -/
theorem c8_roundtrip_of_terminated (links : List (String × LinkEntry)) (bget : BGet)
    (pq : PQuery) (lines : List String) (chems : List (Option String × ChemRes))
    (h : extract_chems links bget pq lines = .ok chems) :
    (chems.map Prod.fst).Nodup
    ∧ (∀ k : Option String, k ∈ chems.map Prod.fst ↔ k ∈ terminatedIds lines)
    ∧ (∀ rows, writeChemRows chems = .ok rows → rows.length = chems.length) := by
  unfold extract_chems at h
  refine ⟨?_, ?_, writeChemRows_length chems⟩
  · exact extract_chems_loop_nodup links bget pq lines initChemAcc [] chems h (by simp)
  · intro k
    have hm := extract_chems_loop_mem links bget pq lines initChemAcc [] chems h k
    simpa [terminatedIds] using hm

/-- C8 witness: on the two-line file `UNIQUE-ID - A` and `//`, the single key
is `A`, it matches the terminated-record ids, and exactly one row is written. -/
theorem c8_witness :
    (([(some "A", (⟨some "", some "", some ""⟩ : ChemRes))].map Prod.fst).Nodup)
    ∧ ((some "A") ∈ ([(some "A", (⟨some "", some "", some ""⟩ : ChemRes))].map Prod.fst)
        ↔ (some "A") ∈ terminatedIds ["UNIQUE-ID - A\n", "//\n"])
    ∧ (["A\t\t\t\n"] : List String).length
        = [(some "A", (⟨some "", some "", some ""⟩ : ChemRes))].length :=
  have h := c8_roundtrip_of_terminated [] (fun _ => .error ()) (fun _ _ => .error ())
    ["UNIQUE-ID - A\n", "//\n"] [(some "A", ⟨some "", some "", some ""⟩)] rfl
  ⟨h.1, h.2.1 (some "A"), h.2.2 ["A\t\t\t\n"] rfl⟩

/-- C10.  A record with no UNIQUE-ID line is still finalized and resolved at
its `//` terminator and stored under the absent-id marker (`none`) as key, and
a second such record overwrites the first, leaving a single entry holding the
second record's resolution; this holds in both the chemical and the reaction
parser. -/
theorem c10_records_without_unique_id :
    (∀ (links : List (String × LinkEntry)) (bget : BGet) (pq : PQuery)
        (body1 body2 : List String) (acc1 acc2 : ChemAcc) (r2 : ChemRes),
      (∀ l ∈ body1, l ≠ "" ∧ isTermLine l = false) →
      (∀ l ∈ body2, l ≠ "" ∧ isTermLine l = false) →
      foldChemSteps body1 initChemAcc = .ok acc1 → acc1.id = none →
      foldChemSteps body2 initChemAcc = .ok acc2 → acc2.id = none →
      impute_chem links bget pq acc2.id acc2.name acc2.inchi acc2.smiles = .ok r2 →
      extract_chems links bget pq (body1 ++ ["//\n"] ++ body2 ++ ["//\n"])
        = .ok [(none, r2)])
    ∧ (∀ (chems : List (Option String × ChemRes)) (body1 body2 : List String)
        (acc1 acc2 : RxnAcc),
      (∀ l ∈ body1, l ≠ "" ∧ isTermLine l = false) →
      (∀ l ∈ body2, l ≠ "" ∧ isTermLine l = false) →
      foldRxnSteps body1 initRxnAcc = .ok acc1 → acc1.id = none →
      foldRxnSteps body2 initRxnAcc = .ok acc2 → acc2.id = none →
      extract_rxns chems (body1 ++ ["//\n"] ++ body2 ++ ["//\n"])
        = .ok [(none, impute_rxn chems none acc2.left acc2.right acc2.direction)]) := by
  constructor
  · intro links bget pq body1 body2 acc1 acc2 r2 hb1 hb2 hf1 hid1 hf2 hid2 himp
    unfold extract_chems
    have hshape : body1 ++ ["//\n"] ++ body2 ++ ["//\n"]
        = body1 ++ ("//\n" :: (body2 ++ ["//\n"])) := by
      simp [List.append_assoc]
    rw [hshape]
    rw [extract_chems_loop_append links bget pq body1 ("//\n" :: (body2 ++ ["//\n"]))
      initChemAcc [] hb1]
    rw [hf1, except_bind_ok]
    simp only [extract_chems_loop]
    rw [if_neg (by decide : ¬ (("//\n" : String) = ""))]
    rw [if_pos (by decide : isTermLine "//\n" = true)]
    obtain ⟨r1, hr1⟩ := impute_chem_isOk links bget pq acc1.id acc1.name acc1.inchi acc1.smiles
    rw [hr1, except_bind_ok, hid1]
    rw [extract_chems_loop_append links bget pq body2 ["//\n"] initChemAcc
      (dictInsert none r1 []) hb2]
    rw [hf2, except_bind_ok]
    simp only [extract_chems_loop]
    rw [if_neg (by decide : ¬ (("//\n" : String) = ""))]
    rw [if_pos (by decide : isTermLine "//\n" = true)]
    rw [himp, except_bind_ok, hid2]
    simp [dictInsert]
  · intro chems body1 body2 acc1 acc2 hb1 hb2 hf1 hid1 hf2 hid2
    unfold extract_rxns
    have hshape : body1 ++ ["//\n"] ++ body2 ++ ["//\n"]
        = body1 ++ ("//\n" :: (body2 ++ ["//\n"])) := by
      simp [List.append_assoc]
    rw [hshape]
    rw [extract_rxns_loop_append chems body1 ("//\n" :: (body2 ++ ["//\n"]))
      initRxnAcc [] hb1]
    rw [hf1, except_bind_ok]
    simp only [extract_rxns_loop]
    rw [if_neg (by decide : ¬ (("//\n" : String) = ""))]
    rw [if_pos (by decide : isTermLine "//\n" = true)]
    rw [hid1]
    rw [extract_rxns_loop_append chems body2 ["//\n"] initRxnAcc
      (dictInsert none (impute_rxn chems none acc1.left acc1.right acc1.direction) []) hb2]
    rw [hf2, except_bind_ok]
    simp only [extract_rxns_loop]
    rw [if_neg (by decide : ¬ (("//\n" : String) = ""))]
    rw [if_pos (by decide : isTermLine "//\n" = true)]
    rw [hid2]
    simp [dictInsert]

/-- C10 witness: two concrete id-less records in each file; the result in each
parser is the single `none`-keyed entry holding the second record's
resolution. -/
theorem c10_witness :
    extract_chems [] (fun _ => .error ()) (fun _ _ => .error ())
      (["COMMON-NAME - foo\n"] ++ ["//\n"] ++ ["COMMON-NAME - bar\n"] ++ ["//\n"])
      = .ok [(none, ⟨some "bar", some "", some ""⟩)]
    ∧ extract_rxns [] (["LEFT - c1\n"] ++ ["//\n"] ++ ["LEFT - c2\n"] ++ ["//\n"])
      = .ok [(none, impute_rxn [] none ["c2"] [] none)] :=
  ⟨c10_records_without_unique_id.1 [] (fun _ => .error ()) (fun _ _ => .error ())
      ["COMMON-NAME - foo\n"] ["COMMON-NAME - bar\n"]
      ⟨none, some "foo", none, none⟩ ⟨none, some "bar", none, none⟩
      ⟨some "bar", some "", some ""⟩
      (by decide) (by decide) rfl rfl rfl rfl rfl,
    c10_records_without_unique_id.2 [] ["LEFT - c1\n"] ["LEFT - c2\n"]
      ⟨none, ["c1"], [], none⟩ ⟨none, ["c2"], [], none⟩
      (by decide) (by decide) rfl rfl rfl rfl⟩

end BioCyc
